import Mathlib

/-!
Verification of the layout-aware text reconstruction engine of the
caps-pdf-suite conversion subsystem: line grouping, column detection,
column assignment, grid construction, and the Word/Excel converters.
Machine numbers are modelled as `Int` (all coordinates are rounded to
whole units at extraction).
-/

/-- A positioned text fragment extracted from a page (`TextItem` in the
source): string, origin `(x, y)` with `y` measured from the top, and a
rounded bounding box. -/
structure TextItem where
  str : String
  x : Int
  y : Int
  width : Int
  height : Int
deriving DecidableEq, Repr

/-- The sort relation of the primary sort `(a, b) => a.y - b.y || a.x - b.x`:
`y` ascending, then `x` ascending. -/
def leYX (a b : TextItem) : Prop :=
  a.y < b.y ∨ (a.y = b.y ∧ a.x ≤ b.x)

instance : DecidableRel leYX := fun a b => by
  unfold leYX; infer_instance

instance : IsTotal TextItem leYX := by
  constructor; intro a b; unfold leYX; omega

instance : IsTrans TextItem leYX := by
  constructor; intro a b c; unfold leYX; omega

/-- The per-line sort relation `(a, b) => a.x - b.x`: `x` ascending. -/
def leX (a b : TextItem) : Prop := a.x ≤ b.x

instance : DecidableRel leX := fun a b => by
  unfold leX; infer_instance

instance : IsTotal TextItem leX := by
  constructor; intro a b; unfold leX; omega

instance : IsTrans TextItem leX := by
  constructor; intro a b c; unfold leX; omega

/-- `[...items].sort((a, b) => a.y - b.y || a.x - b.x)` — a stable sort by
`y` then `x`. -/
def sortYX (items : List TextItem) : List TextItem :=
  List.insertionSort leYX items

/-- `line.sort((a, b) => a.x - b.x)` — a stable sort by `x`. -/
def sortX (line : List TextItem) : List TextItem :=
  List.insertionSort leX line

/-- The grouping test `Math.abs(item.y - lastLine[0].y) <= tolerance`. -/
def withinTol (tolerance firstY : Int) (item : TextItem) : Bool :=
  |item.y - firstY| ≤ tolerance

/-- The loop body of `groupIntoLines`: walk the remaining sorted items,
appending to the line being built (whose first fragment has `y = firstY`)
while the tolerance test passes, and starting a fresh line otherwise. -/
def groupGo (tolerance firstY : Int) (cur : List TextItem) :
    List TextItem → List (List TextItem)
  | [] => [cur]
  | item :: rest =>
    if withinTol tolerance firstY item then
      groupGo tolerance firstY (cur ++ [item]) rest
    else
      cur :: groupGo tolerance item.y [item] rest

/-- `groupIntoLines` before the final `.map((line) => line.sort(...))`:
sort all items by `(y, x)` and walk them, grouping by the tolerance test
against the first fragment of the line being built. -/
def groupIntoLinesRaw (items : List TextItem) (tolerance : Int) :
    List (List TextItem) :=
  match sortYX items with
  | [] => []
  | a :: rest => groupGo tolerance a.y [a] rest

/-- `groupIntoLines(items, tolerance = 5)` from the source: group sorted
items into lines, then sort each line by ascending `x`. -/
def groupIntoLines (items : List TextItem) (tolerance : Int := 5) :
    List (List TextItem) :=
  (groupIntoLinesRaw items tolerance).map sortX

/-- Modelled from the spec's words (C1): walk the `(y, x)`-sorted items and
start a new line exactly when the current fragment's `y` differs from the
first fragment's `y` in the line currently being built by more than the
tolerance; each line is therefore a maximal block led by its first
fragment. -/
def specGroupWalk (tolerance : Int) : List TextItem → List (List TextItem)
  | [] => []
  | a :: rest =>
    (a :: rest.takeWhile (withinTol tolerance a.y)) ::
      specGroupWalk tolerance (rest.dropWhile (withinTol tolerance a.y))
termination_by l => l.length
decreasing_by
  simp only [List.length_cons]
  exact Nat.lt_succ_of_le (List.dropWhile_sublist _).length_le

/-- `[...new Set(xPositions)].sort((a, b) => a - b)`: the distinct values,
in ascending order. -/
def sortedDistinct (xs : List Int) : List Int :=
  List.insertionSort (· ≤ ·) xs.dedup

/-- The loop body of `detectColumns`:
`if (cols.length === 0 || x - cols[cols.length - 1] > 20) cols.push(x)`. -/
def detectStep (cols : List Int) (x : Int) : List Int :=
  match cols.getLast? with
  | none => [x]
  | some last => if x - last > 20 then cols ++ [x] else cols

/-- The core of `detectColumns`, on a bare list of x-positions: deduplicate,
sort ascending, and accept a candidate when it exceeds the last accepted
column by more than 20. -/
def detectCols (xs : List Int) : List Int :=
  (sortedDistinct xs).foldl detectStep []

/-- `detectColumns(lines)` from the source: cluster the x-positions of all
fragments on the page. -/
def detectColumns (lines : List (List TextItem)) : List Int :=
  detectCols ((lines.map (fun l => l.map (·.x))).flatten)

/-- Forward recursion equivalent of the `detectColumns` walk, used to
reason about it: keep a candidate exactly when it exceeds the most
recently accepted column by more than 20. -/
def colsLoop (last : Int) : List Int → List Int
  | [] => []
  | x :: xs => if x - last > 20 then x :: colsLoop x xs else colsLoop last xs

/-- The scan loop of `assignCol`: running best index and best distance,
updated on strict improvement only (`d < bestDist`). -/
def assignGo (x : Int) (best : Nat) (bestDist : Int) (i : Nat) :
    List Int → Nat
  | [] => best
  | c :: rest =>
    if |x - c| < bestDist then assignGo x i (|x - c|) (i + 1) rest
    else assignGo x best bestDist (i + 1) rest

/-- `assignCol(x, cols)` from the source: index of the nearest column.
`bestDist` starts at `Infinity`, so the first column always becomes the
initial best. -/
def assignCol (x : Int) (cols : List Int) : Nat :=
  match cols with
  | [] => 0
  | c :: rest => assignGo x 0 (|x - c|) 1 rest

/-- The string `trim()` of the source language: remove leading and
trailing whitespace. Modelled on the character list so that it is fully
computable. -/
def jsTrim (s : String) : String :=
  String.mk
    (((s.data.dropWhile Char.isWhitespace).reverse.dropWhile
      Char.isWhitespace).reverse)

/-- One cell update of the grid row:
`row[col] = row[col] ? row[col] + " " + item.str : item.str`
(an empty string is falsy in the source language). -/
def fillStep (cols : List Int) (row : List String) (item : TextItem) :
    List String :=
  let col := assignCol item.x cols
  let cur := row.getD col ""
  row.set col (if cur = "" then item.str else cur ++ " " ++ item.str)

/-- Build one grid row for a line:
`const row = Array(cols.length).fill("")` then the per-fragment update. -/
def fillRow (cols : List Int) (line : List TextItem) : List String :=
  line.foldl (fillStep cols) (List.replicate cols.length "")

/-- Grid construction over the page's lines, skipping rows in which every
cell trims to the empty string
(`if (row.some((c) => c.trim())) grid.push(row)`). -/
def makeGrid (cols : List Int) : List (List TextItem) → List (List String)
  | [] => []
  | line :: rest =>
    let row := fillRow cols line
    if row.any (fun c => jsTrim c != "") then row :: makeGrid cols rest
    else makeGrid cols rest

/-- Column width hints:
`Math.min(50, Math.max(10, ...grid.map((r) => (r[ci] || "").length)))`. -/
def colWidths (cols : List Int) (grid : List (List String)) : List Nat :=
  cols.mapIdx (fun ci _ =>
    min 50 ((grid.map (fun r => (r.getD ci "").length)).foldl max 10))

/-- One produced spreadsheet sheet: its name, its grid, and its column
width hints. -/
structure Sheet where
  name : String
  grid : List (List String)
  widths : List Nat
deriving DecidableEq, Repr

/-- The page loop of `convertToExcel`: group with tolerance 8, skip pages
yielding zero lines, otherwise detect columns, build the grid, and name
the sheet `"Page N"` when the document has more than one page and
`"Sheet1"` otherwise. `total` is `pages.length`; `p` the 0-based index. -/
def excelGo (total p : Nat) : List (List TextItem) → List Sheet
  | [] => []
  | page :: rest =>
    let lines := groupIntoLines page 8
    if lines = [] then excelGo total (p + 1) rest
    else
      let cols := detectColumns lines
      let grid := makeGrid cols lines
      let sheetName := if total > 1 then "Page " ++ toString (p + 1) else "Sheet1"
      ⟨sheetName, grid, colWidths cols grid⟩ :: excelGo total (p + 1) rest

/-- `convertToExcel` from the source, modulo the external codec: the
sequence of sheets produced for the document's pages. -/
def convertToExcel (pages : List (List TextItem)) : List Sheet :=
  excelGo pages.length 0 pages

/-- A structured output block of the flow (Word) conversion: the title
heading, a page heading, a body paragraph (with its bold flag and font
size), or a page-break marker. -/
inductive Block where
  | heading1 (text : String)
  | heading2 (text : String)
  | body (text : String) (bold : Bool) (size : Nat)
  | pageBreak
deriving DecidableEq, Repr

/-- Remove the first occurrence of `pat` from a character list, leaving
the list unchanged when `pat` does not occur. -/
def removeFirst (pat : List Char) : List Char → List Char
  | [] => []
  | c :: rest =>
    if pat.isPrefixOf (c :: rest) then (c :: rest).drop pat.length
    else c :: removeFirst pat rest

/-- `file.name.replace(".pdf", "")` from the source: the string `replace`
of the source language substitutes only the first occurrence of the
(case-sensitive) pattern. -/
def stripPdf (name : String) : String :=
  String.mk (removeFirst ".pdf".toList name.toList)

/-- `line.map((i) => i.str).join(" ").trim()`. -/
def lineText (line : List TextItem) : String :=
  jsTrim (String.intercalate " " (line.map (·.str)))

/-- The heading heuristic: `text.length < 60 && line.length <= 3`. -/
def isShortLine (text : String) (line : List TextItem) : Bool :=
  text.length < 60 && line.length ≤ 3

/-- The body paragraphs emitted for one page by `convertToWord`: group
with tolerance 5, join each line's fragments with single spaces and trim,
skip lines whose joined text is empty, and mark short lines bold with the
larger font size. -/
def pageBodyBlocks (page : List TextItem) : List Block :=
  (groupIntoLines page 5).filterMap (fun line =>
    let text := lineText line
    if text = "" then none
    else some (Block.body text (isShortLine text line)
      (if isShortLine text line then 24 else 20)))

/-- The page loop of `convertToWord`: emit a `"Page N"` level-2 heading
when the document has more than one page, then the page's body paragraphs,
then a page-break block except after the last page. `total` is
`pages.length`; `p` the 0-based index. -/
def wordGo (total p : Nat) : List (List TextItem) → List Block
  | [] => []
  | page :: rest =>
    (if total > 1 then [Block.heading2 ("Page " ++ toString (p + 1))] else [])
      ++ pageBodyBlocks page
      ++ (if p < total - 1 then [Block.pageBreak] else [])
      ++ wordGo total (p + 1) rest

/-- `convertToWord` from the source, modulo the external codec: the title
block built from the document's declared name, followed by the per-page
blocks. -/
def convertToWordBlocks (name : String) (pages : List (List TextItem)) :
    List Block :=
  Block.heading1 (stripPdf name) :: wordGo pages.length 0 pages

/-- Modelled from the spec's words (C9): the blocks emitted for one page,
namely its `"Page N"` heading when the document is multi-page followed by
its body paragraphs. -/
def specPageBlocks (total p : Nat) (page : List TextItem) : List Block :=
  (if 1 < total then [Block.heading2 ("Page " ++ toString (p + 1))] else [])
    ++ pageBodyBlocks page

/-- Modelled from the spec's words (C9): concatenate per-page block lists
with a page-break marker between consecutive pages but not after the
last. -/
def joinWithBreaks : List (List Block) → List Block
  | [] => []
  | [b] => b
  | b :: m :: ms => b ++ [Block.pageBreak] ++ joinWithBreaks (m :: ms)

/-- Modelled from the spec's words (C9): one title block first, then the
pages' blocks separated by page breaks. -/
def specFlow (name : String) (pages : List (List TextItem)) : List Block :=
  Block.heading1 (stripPdf name) ::
    joinWithBreaks (pages.enum.map (fun pe => specPageBlocks pages.length pe.1 pe.2))

/-- Recognizer for title blocks. -/
def isHeading1 : Block → Bool
  | Block.heading1 _ => true
  | _ => false

/-- Recognizer for page-break blocks. -/
def isPageBreak : Block → Bool
  | Block.pageBreak => true
  | _ => false

/-- Single-space joining of a list of strings, as the repeated cell update
produces for non-empty pieces. -/
def joinSp : List String → String
  | [] => ""
  | [s] => s
  | s :: rest => s ++ " " ++ joinSp rest

/-! ### Helper lemmas: line grouping -/

lemma groupGo_eq_walk (tol : Int) :
    ∀ (rest : List TextItem) (fy : Int) (cur : List TextItem),
      groupGo tol fy cur rest =
        (cur ++ rest.takeWhile (withinTol tol fy)) ::
          specGroupWalk tol (rest.dropWhile (withinTol tol fy)) := by
  intro rest
  induction rest with
  | nil =>
    intro fy cur
    simp [groupGo, specGroupWalk]
  | cons item rest ih =>
    intro fy cur
    by_cases h : withinTol tol fy item
    · simp only [groupGo, h, if_pos, List.takeWhile_cons_of_pos h,
        List.dropWhile_cons_of_pos h, ih]
      simp
    · simp only [groupGo, h, if_neg, List.takeWhile_cons_of_neg h,
        List.dropWhile_cons_of_neg h, specGroupWalk, ih]
      simp

lemma groupRaw_eq_walk (items : List TextItem) (tol : Int) :
    groupIntoLinesRaw items tol = specGroupWalk tol (sortYX items) := by
  unfold groupIntoLinesRaw
  cases h : sortYX items with
  | nil => simp [specGroupWalk]
  | cons a rest =>
    show groupGo tol a.y [a] rest = specGroupWalk tol (a :: rest)
    rw [groupGo_eq_walk, specGroupWalk]
    simp

lemma specGroupWalk_flatten (tol : Int) :
    ∀ l : List TextItem, (specGroupWalk tol l).flatten = l := by
  intro l
  induction l using specGroupWalk.induct tol with
  | case1 => simp [specGroupWalk]
  | case2 a rest ih =>
    rw [specGroupWalk]
    simp only [List.flatten_cons, ih, List.cons_append,
      List.takeWhile_append_dropWhile]

lemma groupRaw_flatten (items : List TextItem) (tol : Int) :
    (groupIntoLinesRaw items tol).flatten = sortYX items := by
  rw [groupRaw_eq_walk, specGroupWalk_flatten]

lemma specGroupWalk_ne_nil (tol : Int) :
    ∀ (l : List TextItem) (line : List TextItem),
      line ∈ specGroupWalk tol l → line ≠ [] := by
  intro l
  induction l using specGroupWalk.induct tol with
  | case1 => intro line h; simp [specGroupWalk] at h
  | case2 a rest ih =>
    intro line h
    rw [specGroupWalk] at h
    rcases List.mem_cons.mp h with h | h
    · simp [h]
    · exact ih line h

lemma flatten_map_sortX_perm :
    ∀ L : List (List TextItem), (L.map sortX).flatten.Perm L.flatten := by
  intro L
  induction L with
  | nil => simp
  | cons l L ih =>
    simp only [List.map_cons, List.flatten_cons]
    exact (List.perm_insertionSort leX l).append ih

lemma groupIntoLines_flatten_perm (items : List TextItem) (tol : Int) :
    (groupIntoLines items tol).flatten.Perm items := by
  unfold groupIntoLines
  have h1 := flatten_map_sortX_perm (groupIntoLinesRaw items tol)
  rw [groupRaw_flatten] at h1
  exact h1.trans (List.perm_insertionSort leYX items)

lemma groupIntoLines_sorted (items : List TextItem) (tol : Int) :
    ∀ line ∈ groupIntoLines items tol, List.Sorted leX line := by
  intro line h
  unfold groupIntoLines at h
  rcases List.mem_map.mp h with ⟨l, _, rfl⟩
  exact List.sorted_insertionSort leX l

lemma groupIntoLines_ne_nil (items : List TextItem) (tol : Int) :
    ∀ line ∈ groupIntoLines items tol, line ≠ [] := by
  intro line h
  unfold groupIntoLines at h
  rcases List.mem_map.mp h with ⟨l, hl, rfl⟩
  rw [groupRaw_eq_walk] at hl
  have hne := specGroupWalk_ne_nil tol (sortYX items) l hl
  intro hc
  apply hne
  have hlen := congrArg List.length hc
  simp only [sortX, List.length_insertionSort, List.length_nil] at hlen
  exact List.length_eq_zero.mp hlen

/-! ### Helper lemmas: column detection -/

lemma detectStep_foldl :
    ∀ (xs : List Int) (acc : List Int) (last : Int),
      acc.getLast? = some last →
      xs.foldl detectStep acc = acc ++ colsLoop last xs := by
  intro xs
  induction xs with
  | nil => intro acc last _; simp [colsLoop]
  | cons x xs ih =>
    intro acc last h
    by_cases hgt : x - last > 20
    · have hstep : detectStep acc x = acc ++ [x] := by
        simp [detectStep, h, hgt]
      have hlast : (acc ++ [x]).getLast? = some x := by
        simp
      calc (x :: xs).foldl detectStep acc = xs.foldl detectStep (acc ++ [x]) := by
            rw [List.foldl_cons, hstep]
        _ = (acc ++ [x]) ++ colsLoop x xs := ih (acc ++ [x]) x hlast
        _ = acc ++ colsLoop last (x :: xs) := by
            simp [colsLoop, hgt]
    · have hstep : detectStep acc x = acc := by
        simp [detectStep, h, hgt]
      calc (x :: xs).foldl detectStep acc = xs.foldl detectStep acc := by
            rw [List.foldl_cons, hstep]
        _ = acc ++ colsLoop last xs := ih acc last h
        _ = acc ++ colsLoop last (x :: xs) := by
            simp [colsLoop, hgt]

lemma detectCols_eq (xs : List Int) :
    detectCols xs =
      match sortedDistinct xs with
      | [] => []
      | c :: r => c :: colsLoop c r := by
  unfold detectCols
  cases h : sortedDistinct xs with
  | nil => simp
  | cons c r =>
    have hstep : detectStep [] c = [c] := by simp [detectStep]
    rw [List.foldl_cons, hstep, detectStep_foldl r [c] c (by simp)]
    simp

lemma colsLoop_chain :
    ∀ (xs : List Int) (last : Int),
      List.Chain (fun a b => 20 < b - a) last (colsLoop last xs) := by
  intro xs
  induction xs with
  | nil => intro last; exact List.Chain.nil
  | cons x xs ih =>
    intro last
    by_cases hgt : x - last > 20
    · simp only [colsLoop, if_pos hgt]
      exact List.Chain.cons (by omega) (ih x)
    · simp only [colsLoop, if_neg hgt]
      exact ih last

lemma colsLoop_of_chain :
    ∀ (xs : List Int) (last : Int),
      List.Chain (fun a b => 20 < b - a) last xs → colsLoop last xs = xs := by
  intro xs
  induction xs with
  | nil => intro last _; rfl
  | cons x xs ih =>
    intro last h
    rcases List.chain_cons.mp h with ⟨h1, h2⟩
    simp only [colsLoop, if_pos (by omega : x - last > 20)]
    rw [ih x h2]

lemma detectCols_chain' (xs : List Int) :
    List.Chain' (fun a b => 20 < b - a) (detectCols xs) := by
  rw [detectCols_eq]
  cases sortedDistinct xs with
  | nil => trivial
  | cons c r =>
    show List.Chain (fun a b => 20 < b - a) c (colsLoop c r)
    exact colsLoop_chain r c

lemma detectCols_pairwise (xs : List Int) :
    List.Pairwise (fun a b => 20 < b - a) (detectCols xs) := by
  haveI : IsTrans Int (fun a b => 20 < b - a) := ⟨by intro a b c h1 h2; omega⟩
  exact List.chain'_iff_pairwise.mp (detectCols_chain' xs)

lemma sortedDistinct_eq_self {l : List Int}
    (hs : List.Sorted (· ≤ ·) l) (hn : l.Nodup) : sortedDistinct l = l := by
  unfold sortedDistinct
  rw [List.dedup_eq_self.mpr hn]
  exact hs.insertionSort_eq

lemma detectCols_idem (xs : List Int) :
    detectCols (detectCols xs) = detectCols xs := by
  have hpw := detectCols_pairwise xs
  have hle : List.Pairwise (fun a b : Int => a ≤ b) (detectCols xs) :=
    hpw.imp (fun h => by omega)
  have hnd : List.Pairwise (fun a b : Int => a ≠ b) (detectCols xs) :=
    hpw.imp (fun h => by omega)
  have hsd : sortedDistinct (detectCols xs) = detectCols xs :=
    sortedDistinct_eq_self hle hnd
  rw [detectCols_eq, hsd]
  have hch := detectCols_chain' xs
  cases h : detectCols xs with
  | nil => rfl
  | cons c r =>
    rw [h] at hch
    have hch2 : List.Chain (fun a b => 20 < b - a) c r := hch
    show c :: colsLoop c r = c :: r
    rw [colsLoop_of_chain r c hch2]

lemma sortedDistinct_ne_nil {xs : List Int} (h : xs ≠ []) :
    sortedDistinct xs ≠ [] := by
  rcases List.exists_mem_of_ne_nil xs h with ⟨a, ha⟩
  have : a ∈ sortedDistinct xs := by
    unfold sortedDistinct
    rw [List.mem_insertionSort]
    exact List.mem_dedup.mpr ha
  exact List.ne_nil_of_mem this

lemma detectCols_ne_nil {xs : List Int} (h : xs ≠ []) : detectCols xs ≠ [] := by
  rw [detectCols_eq]
  cases hs : sortedDistinct xs with
  | nil => exact absurd hs (sortedDistinct_ne_nil h)
  | cons c r => simp

/-! ### Helper lemmas: nearest-column assignment -/

lemma assignGo_inv (x : Int) (cols : List Int) :
    ∀ (rest : List Int) (k best : Nat) (bd : Int),
      rest = cols.drop k →
      best < k →
      best < cols.length →
      bd = |x - cols.getD best 0| →
      (∀ j < k, bd ≤ |x - cols.getD j 0|) →
      (∀ j < k, |x - cols.getD j 0| = bd → best ≤ j) →
      assignGo x best bd k rest < cols.length ∧
      (∀ j < cols.length,
        |x - cols.getD (assignGo x best bd k rest) 0| ≤ |x - cols.getD j 0|) ∧
      (∀ j < cols.length,
        |x - cols.getD j 0| = |x - cols.getD (assignGo x best bd k rest) 0| →
          assignGo x best bd k rest ≤ j) := by
  intro rest
  induction rest with
  | nil =>
    intro k best bd hdrop hbk hblen hbd hmin htie
    have hklen : cols.length ≤ k := List.drop_eq_nil_iff.mp hdrop.symm
    refine ⟨hblen, ?_, ?_⟩
    · intro j hj
      rw [assignGo, hbd] at *
      exact hmin j (lt_of_lt_of_le hj hklen)
    · intro j hj heq
      rw [assignGo] at *
      rw [← hbd] at heq
      exact htie j (lt_of_lt_of_le hj hklen) heq
  | cons c rest' ih =>
    intro k best bd hdrop hbk hblen hbd hmin htie
    have hkc : cols[k]? = some c := by
      have := List.getElem?_drop cols k 0
      rw [← hdrop] at this
      simpa using this.symm
    have hklen : k < cols.length := by
      by_contra hge
      rw [List.drop_eq_nil_of_le (by omega)] at hdrop
      exact List.cons_ne_nil c rest' hdrop
    have hgetk : cols.getD k 0 = c := by
      simp [List.getD_eq_getElem?_getD, hkc]
    have hrest' : rest' = cols.drop (k + 1) := by
      have h1 : (cols.drop k).drop 1 = cols.drop (k + 1) := List.drop_drop 1 k cols
      rw [← hdrop] at h1
      simpa using h1
    rw [assignGo]
    by_cases hd : |x - c| < bd
    · rw [if_pos hd]
      apply ih (k + 1) k (|x - c|) hrest' (by omega) hklen (by rw [hgetk])
      · intro j hj
        rcases Nat.lt_or_ge j k with hjk | hjk
        · exact le_trans (le_of_lt hd) (hmin j hjk)
        · have : j = k := by omega
          rw [this, hgetk]
      · intro j hj heq
        rcases Nat.lt_or_ge j k with hjk | hjk
        · have := hmin j hjk
          omega
        · omega
    · rw [if_neg hd]
      apply ih (k + 1) best bd hrest' (by omega) hblen hbd
      · intro j hj
        rcases Nat.lt_or_ge j k with hjk | hjk
        · exact hmin j hjk
        · have : j = k := by omega
          rw [this, hgetk]
          omega
      · intro j hj heq
        rcases Nat.lt_or_ge j k with hjk | hjk
        · exact htie j hjk heq
        · omega

lemma assignCol_spec (x : Int) (cols : List Int) (h : cols ≠ []) :
    assignCol x cols < cols.length ∧
    (∀ j < cols.length,
      |x - cols.getD (assignCol x cols) 0| ≤ |x - cols.getD j 0|) ∧
    (∀ j < cols.length,
      |x - cols.getD j 0| = |x - cols.getD (assignCol x cols) 0| →
        assignCol x cols ≤ j) := by
  match cols with
  | [] => exact absurd rfl h
  | c :: rest =>
    show assignGo x 0 (|x - c|) 1 rest < _ ∧ _
    apply assignGo_inv x (c :: rest) rest 1 0 (|x - c|) (by simp) (by omega)
      (by simp) (by simp)
    · intro j hj
      have : j = 0 := by omega
      simp [this]
    · intro j _ _
      exact Nat.zero_le j

lemma assignCol_lt (x : Int) (cols : List Int) (h : cols ≠ []) :
    assignCol x cols < cols.length :=
  (assignCol_spec x cols h).1

/-! ### Helper lemmas: grid rows and blank-row elision -/

/-- The repeated cell update applied to an initial cell content. -/
def joinCell (cur : String) (ss : List String) : String :=
  ss.foldl (fun acc s => if acc = "" then s else acc ++ " " ++ s) cur

lemma fillFold_length (cols : List Int) :
    ∀ (line : List TextItem) (row : List String),
      (line.foldl (fillStep cols) row).length = row.length := by
  intro line
  induction line with
  | nil => intro row; rfl
  | cons i line ih =>
    intro row
    rw [List.foldl_cons, ih]
    simp [fillStep]

lemma fillFold_getD (cols : List Int) :
    ∀ (line : List TextItem) (row : List String) (c : Nat), c < row.length →
      (line.foldl (fillStep cols) row).getD c "" =
        joinCell (row.getD c "")
          ((line.filter (fun i => assignCol i.x cols == c)).map (·.str)) := by
  intro line
  induction line with
  | nil => intro row c _; rfl
  | cons i line ih =>
    intro row c hc
    rw [List.foldl_cons]
    by_cases ha : assignCol i.x cols = c
    · have hfilter :
          (i :: line).filter (fun i => assignCol i.x cols == c) =
            i :: line.filter (fun i => assignCol i.x cols == c) := by
        simp [List.filter_cons, ha]
      rw [hfilter]
      have hset : (fillStep cols row i).getD c "" =
          (if row.getD c "" = "" then i.str
           else row.getD c "" ++ " " ++ i.str) := by
        simp only [fillStep, ha]
        simp [List.getD_eq_getElem?_getD, List.getElem?_set_self hc]
      rw [ih (fillStep cols row i) c (by simpa [fillStep] using hc)]
      rw [hset]
      simp only [List.map_cons, joinCell, List.foldl_cons]
    · have hfilter :
          (i :: line).filter (fun i => assignCol i.x cols == c) =
            line.filter (fun i => assignCol i.x cols == c) := by
        simp [List.filter_cons, ha]
      rw [hfilter]
      have hset : (fillStep cols row i).getD c "" = row.getD c "" := by
        simp only [fillStep]
        simp [List.getD_eq_getElem?_getD, List.getElem?_set_ne ha]
      rw [ih (fillStep cols row i) c (by simpa [fillStep] using hc)]
      rw [hset]

lemma joinSp_glue (cur s : String) :
    ∀ ss : List String,
      joinSp ((cur ++ " " ++ s) :: ss) = cur ++ " " ++ joinSp (s :: ss) := by
  intro ss
  cases ss with
  | nil => rfl
  | cons r rs =>
    show (cur ++ " " ++ s) ++ " " ++ joinSp (r :: rs)
        = cur ++ " " ++ (s ++ " " ++ joinSp (r :: rs))
    simp [String.append_assoc]

lemma append_sp_ne_empty (cur s : String) : cur ++ " " ++ s ≠ "" := by
  intro h
  have := congrArg String.length h
  simp [String.length_append] at this
  exact absurd this.1.2 (by decide)

lemma joinCell_ne_empty (cur : String) :
    ∀ ss : List String, (∀ t ∈ ss, t ≠ "") → cur ≠ "" →
      joinCell cur ss = joinSp (cur :: ss) := by
  intro ss
  induction ss generalizing cur with
  | nil => intro _ _; rfl
  | cons s ss ih =>
    intro hss hcur
    show joinCell (if cur = "" then s else cur ++ " " ++ s) ss = _
    rw [if_neg hcur]
    rw [ih (cur ++ " " ++ s) (fun t ht => hss t (List.mem_cons_of_mem s ht))
      (append_sp_ne_empty cur s)]
    exact joinSp_glue cur s ss

lemma joinCell_empty_start :
    ∀ ss : List String, (∀ t ∈ ss, t ≠ "") → joinCell "" ss = joinSp ss := by
  intro ss hss
  cases ss with
  | nil => rfl
  | cons s ss =>
    show joinCell (if ("" : String) = "" then s else "" ++ " " ++ s) ss = _
    rw [if_pos rfl]
    exact joinCell_ne_empty s ss (fun t ht => hss t (List.mem_cons_of_mem s ht))
      (hss s (List.mem_cons_self s ss))

lemma fillRow_length (cols : List Int) (line : List TextItem) :
    (fillRow cols line).length = cols.length := by
  unfold fillRow
  rw [fillFold_length]
  simp

lemma fillRow_cell (cols : List Int) (line : List TextItem) (c : Nat)
    (hc : c < cols.length) (hne : ∀ i ∈ line, i.str ≠ "") :
    (fillRow cols line).getD c "" =
      joinSp ((line.filter (fun i => assignCol i.x cols == c)).map (·.str)) := by
  unfold fillRow
  rw [fillFold_getD cols line (List.replicate cols.length "") c (by simp [hc])]
  have hrep : (List.replicate cols.length "").getD c "" = "" := by
    simp [List.getD_eq_getElem?_getD, List.getElem?_replicate, hc]
  rw [hrep]
  apply joinCell_empty_start
  intro t ht
  rcases List.mem_map.mp ht with ⟨i, hi, rfl⟩
  exact hne i (List.mem_filter.mp hi).1

lemma makeGrid_no_blank_row (cols : List Int) :
    ∀ (lines : List (List TextItem)) (row : List String),
      row ∈ makeGrid cols lines → ∃ cell ∈ row, jsTrim cell ≠ "" := by
  intro lines
  induction lines with
  | nil => intro row h; simp [makeGrid] at h
  | cons line rest ih =>
    intro row h
    rw [makeGrid] at h
    by_cases hb : (fillRow cols line).any (fun c => jsTrim c != "")
    · rw [if_pos hb] at h
      rcases List.mem_cons.mp h with h | h
      · rcases List.any_eq_true.mp hb with ⟨cell, hcell, htrim⟩
        exact ⟨cell, h ▸ hcell, by simpa using htrim⟩
      · exact ih row h
    · rw [if_neg hb] at h
      exact ih row h

lemma excelGo_grid :
    ∀ (pgs : List (List TextItem)) (total p : Nat) (s : Sheet),
      s ∈ excelGo total p pgs →
      ∃ cols lines, s.grid = makeGrid cols lines := by
  intro pgs
  induction pgs with
  | nil => intro total p s h; simp [excelGo] at h
  | cons page rest ih =>
    intro total p s h
    rw [excelGo] at h
    by_cases hl : groupIntoLines page 8 = []
    · rw [if_pos hl] at h
      exact ih total (p + 1) s h
    · rw [if_neg hl] at h
      rcases List.mem_cons.mp h with h | h
      · refine ⟨detectColumns (groupIntoLines page 8), groupIntoLines page 8, ?_⟩
        rw [h]
      · exact ih total (p + 1) s h

/-! ### Helper lemmas: sheet naming and flow structure -/

lemma excelGo_names :
    ∀ (pgs : List (List TextItem)) (total p : Nat),
      (excelGo total p pgs).map (·.name) =
        ((List.enumFrom p pgs).filter
            (fun pe => !(groupIntoLines pe.2 8).isEmpty)).map
          (fun pe =>
            if total > 1 then "Page " ++ toString (pe.1 + 1) else "Sheet1") := by
  intro pgs
  induction pgs with
  | nil => intro total p; rfl
  | cons page rest ih =>
    intro total p
    rw [excelGo, List.enumFrom_cons]
    by_cases hl : groupIntoLines page 8 = []
    · rw [if_pos hl, List.filter_cons]
      have : (!(groupIntoLines page 8).isEmpty) = false := by
        simp [hl]
      rw [this]
      simp only [Bool.false_eq_true, if_neg (by simp : ¬False)]
      exact ih total (p + 1)
    · rw [if_neg hl, List.filter_cons]
      have : (!(groupIntoLines page 8).isEmpty) = true := by
        simp [List.isEmpty_iff, hl]
      rw [this]
      simp only [if_pos trivial, List.map_cons]
      rw [ih total (p + 1)]

lemma pageBodyBlocks_body (page : List TextItem) :
    ∀ b ∈ pageBodyBlocks page, ∃ t bo sz, b = Block.body t bo sz := by
  intro b hb
  rcases List.mem_filterMap.mp hb with ⟨line, _, hline⟩
  by_cases ht : lineText line = ""
  · simp [ht] at hline
  · rw [if_neg ht, Option.some_inj] at hline
    exact ⟨_, _, _, hline.symm⟩

lemma wordGo_not_heading1 :
    ∀ (pgs : List (List TextItem)) (total p : Nat) (b : Block),
      b ∈ wordGo total p pgs → isHeading1 b = false := by
  intro pgs
  induction pgs with
  | nil => intro total p b h; simp [wordGo] at h
  | cons page rest ih =>
    intro total p b h
    rw [wordGo] at h
    rcases List.mem_append.mp h with h | h
    · rcases List.mem_append.mp h with h | h
      · rcases List.mem_append.mp h with h | h
        · rcases List.mem_ite_nil_right.mp h with ⟨_, h⟩
          rw [List.mem_singleton.mp h]
          rfl
        · rcases pageBodyBlocks_body page b h with ⟨t, bo, sz, rfl⟩
          rfl
      · rcases List.mem_ite_nil_right.mp h with ⟨_, h⟩
        rw [List.mem_singleton.mp h]
        rfl
    · exact ih total (p + 1) b h

lemma wordGo_eq_joinBreaks :
    ∀ (pgs : List (List TextItem)) (total p : Nat),
      p + pgs.length = total →
      wordGo total p pgs =
        joinWithBreaks
          ((List.enumFrom p pgs).map
            (fun pe => specPageBlocks total pe.1 pe.2)) := by
  intro pgs
  induction pgs with
  | nil => intro total p _; rfl
  | cons page rest ih =>
    intro total p hp
    rw [wordGo, List.enumFrom_cons, List.map_cons]
    cases rest with
    | nil =>
      have htot : total = p + 1 := by
        simpa using hp.symm
      have hbr : ¬ (p < total - 1) := by omega
      rw [if_neg hbr]
      show _ = joinWithBreaks [specPageBlocks total p page]
      simp [wordGo, joinWithBreaks, specPageBlocks, Nat.lt_iff_add_one_le]
    | cons r rs =>
      have hbr : p < total - 1 := by
        simp only [List.length_cons] at hp
        omega
      rw [if_pos hbr]
      rw [ih total (p + 1) (by simp only [List.length_cons] at hp ⊢; omega)]
      rw [List.enumFrom_cons, List.map_cons]
      show _ = joinWithBreaks (specPageBlocks total p page :: _ :: _)
      rw [joinWithBreaks]
      simp [specPageBlocks, List.append_assoc]

lemma wordGo_heading2_mem :
    ∀ (pgs : List (List TextItem)) (total p : Nat), 1 < total →
      ∀ j < pgs.length,
        Block.heading2 ("Page " ++ toString (p + j + 1)) ∈ wordGo total p pgs := by
  intro pgs
  induction pgs with
  | nil => intro total p _ j hj; simp at hj
  | cons page rest ih =>
    intro total p htot j hj
    rw [wordGo]
    cases j with
    | zero =>
      apply List.mem_append.mpr
      left
      apply List.mem_append.mpr
      left
      apply List.mem_append.mpr
      left
      rw [if_pos (by omega : total > 1)]
      simp
    | succ j' =>
      apply List.mem_append.mpr
      right
      have hmem := ih total (p + 1) htot j' (by simpa using hj)
      have harith : p + 1 + j' + 1 = p + (j' + 1) + 1 := by omega
      rw [harith] at hmem
      exact hmem

lemma wordGo_filter_heading1 (pgs : List (List TextItem)) (total p : Nat) :
    (wordGo total p pgs).filter isHeading1 = [] :=
  List.filter_eq_nil_iff.mpr
    (fun b hb => by simp [wordGo_not_heading1 pgs total p b hb])

lemma pageBodyBlocks_filter_break (page : List TextItem) :
    (pageBodyBlocks page).filter isPageBreak = [] :=
  List.filter_eq_nil_iff.mpr (fun b hb => by
    rcases pageBodyBlocks_body page b hb with ⟨t, bo, sz, rfl⟩
    simp [isPageBreak])

lemma heading_filter_break (t : String) (c : Prop) [Decidable c] :
    ((if c then [Block.heading2 t] else []).filter isPageBreak) = [] := by
  split
  · simp [isPageBreak]
  · rfl

lemma wordGo_break_count :
    ∀ (pgs : List (List TextItem)) (total p : Nat),
      p + pgs.length = total →
      ((wordGo total p pgs).filter isPageBreak).length = pgs.length - 1 := by
  intro pgs
  induction pgs with
  | nil => intro total p _; rfl
  | cons page rest ih =>
    intro total p hp
    rw [wordGo, List.filter_append, List.filter_append, List.filter_append]
    rw [heading_filter_break, pageBodyBlocks_filter_break]
    cases rest with
    | nil =>
      have hlast : ¬ (p < total - 1) := by
        simp only [List.length_cons, List.length_nil] at hp
        omega
      rw [if_neg hlast]
      rfl
    | cons r rs =>
      have hbr : p < total - 1 := by
        simp only [List.length_cons] at hp
        omega
      rw [if_pos hbr]
      have hrec := ih total (p + 1) (by
        simp only [List.length_cons] at hp ⊢
        omega)
      simp only [List.nil_append, List.append_nil, List.length_append,
        List.filter_cons, List.filter_nil, hrec]
      simp [isPageBreak]
      omega

/-! ### Claim theorems -/

/-- C1: `groupIntoLines` first sorts the fragments by y ascending then x
ascending and walks that order, starting a new line exactly when the
current fragment's y differs from the y of the first fragment of the line
being built by more than the tolerance, and appending otherwise; the
fragments ("Hello",10,10) and ("World",60,11) at tolerance 5 form one
line, and ("A",10,10), ("B",10,50) at tolerance 5 form two lines. -/
theorem C1_group_into_lines_walk :
    (∀ (items : List TextItem) (tolerance : Int),
      groupIntoLines items tolerance =
        (specGroupWalk tolerance (sortYX items)).map sortX) ∧
    groupIntoLines [⟨"Hello", 10, 10, 5, 5⟩, ⟨"World", 60, 11, 5, 5⟩] 5 =
      [[⟨"Hello", 10, 10, 5, 5⟩, ⟨"World", 60, 11, 5, 5⟩]] ∧
    groupIntoLines [⟨"A", 10, 10, 5, 5⟩, ⟨"B", 10, 50, 5, 5⟩] 5 =
      [[⟨"A", 10, 10, 5, 5⟩], [⟨"B", 10, 50, 5, 5⟩]] := by
  refine ⟨?_, by decide, by decide⟩
  intro items tolerance
  unfold groupIntoLines
  rw [groupRaw_eq_walk]

/-- C2 counterexample: at tolerance 5 the fragments ("A",x=20,y=10) and
("B",x=10,y=11) merge into one line whose per-line x re-sort swaps them,
so the flattened output is not in non-decreasing (y, x) order. -/
theorem C2_flatten_order_counterexample :
    (groupIntoLines [⟨"A", 20, 10, 5, 5⟩, ⟨"B", 10, 11, 5, 5⟩] 5).flatten =
      [⟨"B", 10, 11, 5, 5⟩, ⟨"A", 20, 10, 5, 5⟩] ∧
    ¬ List.Sorted leYX
      ((groupIntoLines [⟨"A", 20, 10, 5, 5⟩, ⟨"B", 10, 11, 5, 5⟩] 5).flatten) := by
  exact ⟨by decide, by decide⟩

/-- C2 (amended): the lines returned by `groupIntoLines`, flattened, are a
permutation of the input (no fragment lost or introduced), each returned
line is sorted by ascending x, and the concatenation of the lines before
the per-line x re-sort is exactly the input sorted by y then x (which is a
non-decreasing y-then-x total order); the flattened re-sorted output
itself need not be (y, x)-sorted. -/
theorem C2_grouping_partition_amended (items : List TextItem) (tolerance : Int) :
    ((groupIntoLines items tolerance).flatten).Perm items ∧
    (∀ line ∈ groupIntoLines items tolerance, List.Sorted leX line) ∧
    (groupIntoLinesRaw items tolerance).flatten = sortYX items ∧
    List.Sorted leYX (sortYX items) :=
  ⟨groupIntoLines_flatten_perm items tolerance,
   groupIntoLines_sorted items tolerance,
   groupRaw_flatten items tolerance,
   List.sorted_insertionSort leYX items⟩

/-- C2 witness: the amended statement evaluated on the counterexample
input. -/
theorem C2_grouping_partition_witness :
    ((groupIntoLines [⟨"A", 20, 10, 5, 5⟩, ⟨"B", 10, 11, 5, 5⟩] 5).flatten).Perm
      [⟨"A", 20, 10, 5, 5⟩, ⟨"B", 10, 11, 5, 5⟩] ∧
    List.Sorted leX [⟨"B", 10, 11, 5, 5⟩, ⟨"A", 20, 10, 5, 5⟩] := by
  constructor
  · exact (C2_grouping_partition_amended
      [⟨"A", 20, 10, 5, 5⟩, ⟨"B", 10, 11, 5, 5⟩] 5).1
  · exact (C2_grouping_partition_amended
      [⟨"A", 20, 10, 5, 5⟩, ⟨"B", 10, 11, 5, 5⟩] 5).2.1
      [⟨"B", 10, 11, 5, 5⟩, ⟨"A", 20, 10, 5, 5⟩] (by decide)

/-- Modelled from the spec's words (C3): collect the distinct fragment
x-positions, sort ascending, and walking in that order accept a candidate
as a new column exactly when it exceeds the most recently accepted
column's x by more than 20, keeping the first-seen value. -/
def specDetectColumns (lines : List (List TextItem)) : List Int :=
  match sortedDistinct ((lines.map (fun l => l.map (·.x))).flatten) with
  | [] => []
  | c :: r => c :: colsLoop c r

/-- C3: `detectColumns` computes the distinct fragment x-positions across
all lines, sorts them ascending, and accepts a candidate as a new column
exactly when it exceeds the most recently accepted column's x by more
than 20 units, keeping the first-seen representative; for x-positions
[10, 15, 80, 83] the detected columns are [10, 80]. -/
theorem C3_detect_columns :
    (∀ lines : List (List TextItem),
      detectColumns lines = specDetectColumns lines) ∧
    detectColumns [[⟨"a", 10, 10, 5, 5⟩, ⟨"b", 15, 10, 5, 5⟩,
      ⟨"c", 80, 10, 5, 5⟩, ⟨"d", 83, 10, 5, 5⟩]] = [10, 80] := by
  refine ⟨?_, by decide⟩
  intro lines
  unfold detectColumns specDetectColumns
  exact detectCols_eq _

/-- C4 counterexample: a two-page document whose second page is empty has
exactly one page with content, yet its single sheet is named "Page 1",
not the fixed default "Sheet1". -/
theorem C4_sheet_name_counterexample :
    (convertToExcel [[⟨"A", 10, 10, 5, 5⟩], []]).map (·.name) = ["Page 1"] ∧
    "Page 1" ≠ "Sheet1" :=
  ⟨by decide, by decide⟩

/-- C4 (amended): the default sheet name is used exactly when the document
has exactly one page in total (not one page with content): each produced
sheet is named "Page N" by the original 1-based page index whenever the
document has more than one page, pages yielding zero lines produce no
sheet, and the remaining sheets keep their original page numbers; a
single-page document with content yields one sheet named "Sheet1", and
a 3-page document whose page 2 is empty yields "Page 1" and "Page 3". -/
theorem C4_sheet_naming_amended :
    (∀ pages : List (List TextItem),
      (convertToExcel pages).map (·.name) =
        ((pages.enum.filter (fun pe => !(groupIntoLines pe.2 8).isEmpty)).map
          (fun pe =>
            if pages.length > 1 then "Page " ++ toString (pe.1 + 1)
            else "Sheet1"))) ∧
    (convertToExcel [[⟨"A", 10, 10, 5, 5⟩]]).map (·.name) = ["Sheet1"] ∧
    (convertToExcel [[⟨"A", 10, 10, 5, 5⟩], [], [⟨"C", 10, 10, 5, 5⟩]]).map
      (·.name) = ["Page 1", "Page 3"] := by
  refine ⟨?_, by decide, by decide⟩
  intro pages
  rw [List.enum_eq_enumFrom]
  exact excelGo_names pages pages.length 0

/-- C5: every fragment is assigned to the column whose representative x is
nearest to the fragment's x (the leftmost, lowest-index column winning
ties, since the scan uses strict less-than); fragments assigned to the
same column on the same line are concatenated into the cell with single
spaces in the line's order, and every line produced by `groupIntoLines`
is sorted by ascending x, so the concatenation is in ascending-x order. -/
theorem C5_assign_nearest_cells :
    (∀ (x : Int) (cols : List Int), cols ≠ [] →
      assignCol x cols < cols.length ∧
      (∀ j < cols.length,
        |x - cols.getD (assignCol x cols) 0| ≤ |x - cols.getD j 0|) ∧
      (∀ j < cols.length,
        |x - cols.getD j 0| = |x - cols.getD (assignCol x cols) 0| →
          assignCol x cols ≤ j)) ∧
    (∀ (cols : List Int) (line : List TextItem) (c : Nat),
      c < cols.length → (∀ i ∈ line, i.str ≠ "") →
      (fillRow cols line).getD c "" =
        joinSp ((line.filter (fun i => assignCol i.x cols == c)).map (·.str))) ∧
    (∀ (items : List TextItem) (tolerance : Int),
      ∀ line ∈ groupIntoLines items tolerance, List.Sorted leX line) :=
  ⟨assignCol_spec, fillRow_cell, groupIntoLines_sorted⟩

/-- C5 witness: x = 15 is equidistant from columns 10 and 20 and the
leftmost (index 0) wins; the fragments at x = 12 and x = 14 both assign
to the column at 10 and concatenate as "p q". -/
theorem C5_assign_nearest_cells_witness :
    assignCol 15 [10, 20] < 2 ∧
    (fillRow [10, 80] [⟨"p", 12, 10, 5, 5⟩, ⟨"q", 14, 10, 5, 5⟩]).getD 0 ""
      = "p q" := by
  constructor
  · exact (C5_assign_nearest_cells.1 15 [10, 20] (by decide)).1
  · have h := C5_assign_nearest_cells.2.1 [10, 80]
      [⟨"p", 12, 10, 5, 5⟩, ⟨"q", 14, 10, 5, 5⟩] 0 (by decide) (by decide)
    rw [h]
    decide

/-- C6: a grid produced by table conversion never contains a row in which
every cell, after trimming, is the empty string. -/
theorem C6_no_blank_rows :
    ∀ (pages : List (List TextItem)) (s : Sheet), s ∈ convertToExcel pages →
      ∀ row ∈ s.grid, ∃ cell ∈ row, jsTrim cell ≠ "" := by
  intro pages s hs row hrow
  rcases excelGo_grid pages pages.length 0 s hs with ⟨cols, lines, hgrid⟩
  rw [hgrid] at hrow
  exact makeGrid_no_blank_row cols lines row hrow

/-- C6 witness: the single sheet of a one-fragment document has the
non-blank row ["A"]. -/
theorem C6_no_blank_rows_witness :
    ∃ cell ∈ ["A"], jsTrim cell ≠ "" := by
  apply C6_no_blank_rows [[⟨"A", 10, 10, 5, 5⟩]] ⟨"Sheet1", [["A"]], [10]⟩
  · rw [show convertToExcel [[⟨"A", 10, 10, 5, 5⟩]] =
      [⟨"Sheet1", [["A"]], [10]⟩] from by decide]
    exact List.mem_singleton_self _
  · show (["A"] : List String) ∈ [["A"]]
    exact List.mem_singleton_self _

/-- C7: the column list returned by `detectColumns` is strictly increasing
and any two adjacent columns differ by more than 20 units (in fact any
two columns do). -/
theorem C7_adjacent_column_gap (lines : List (List TextItem)) :
    List.Chain' (fun a b : Int => 20 < b - a) (detectColumns lines) ∧
    List.Pairwise (fun a b : Int => a < b) (detectColumns lines) := by
  constructor
  · exact detectCols_chain' _
  · exact (detectCols_pairwise _).imp (fun h => by omega)

/-- C8: column detection is idempotent: for every duplicate-free list of
x-positions, running the detection walk on its own output yields the same
column list, and likewise on the output of `detectColumns`. -/
theorem C8_detect_idempotent :
    (∀ xs : List Int, xs.Nodup →
      detectCols (detectCols xs) = detectCols xs) ∧
    (∀ lines : List (List TextItem),
      detectCols (detectColumns lines) = detectColumns lines) := by
  constructor
  · intro xs _
    exact detectCols_idem xs
  · intro lines
    exact detectCols_idem _

/-- C8 witness: idempotence evaluated at the duplicate-free x-positions
[10, 15, 80, 83]. -/
theorem C8_detect_idempotent_witness :
    detectCols (detectCols [10, 15, 80, 83]) = detectCols [10, 15, 80, 83] :=
  C8_detect_idempotent.1 [10, 15, 80, 83] (by decide)

/-- C9 counterexample: for the declared name "doc.PDF" the title block's
text is "doc.PDF" — the extension is not stripped, because the source
removes only the first occurrence of the case-sensitive substring
".pdf". -/
theorem C9_title_counterexample :
    (convertToWordBlocks "doc.PDF" [[⟨"A", 10, 10, 5, 5⟩]]).head? =
      some (Block.heading1 "doc.PDF") ∧
    (convertToWordBlocks "doc.PDF" [[⟨"A", 10, 10, 5, 5⟩]]).head? ≠
      some (Block.heading1 "doc") :=
  ⟨by decide, by decide⟩

/-- C9 (amended): the flow output begins with exactly one title block at
heading level 1 whose text is the document's declared name with the first
occurrence of the case-sensitive substring ".pdf" removed (not
necessarily the extension); then, if the document has more than one page,
a "Page N" heading level 2 block is emitted for every page
unconditionally, and a page-break marker block is emitted between
consecutive pages but not after the last page. -/
theorem C9_flow_structure_amended (name : String)
    (pages : List (List TextItem)) :
    convertToWordBlocks name pages = specFlow name pages ∧
    (convertToWordBlocks name pages).head? =
      some (Block.heading1 (stripPdf name)) ∧
    ((convertToWordBlocks name pages).filter isHeading1).length = 1 ∧
    (1 < pages.length → ∀ j < pages.length,
      Block.heading2 ("Page " ++ toString (j + 1)) ∈
        convertToWordBlocks name pages) ∧
    ((convertToWordBlocks name pages).filter isPageBreak).length =
      pages.length - 1 := by
  refine ⟨?_, rfl, ?_, ?_, ?_⟩
  · unfold convertToWordBlocks specFlow
    rw [wordGo_eq_joinBreaks pages pages.length 0 (by simp),
      List.enum_eq_enumFrom]
  · show ((Block.heading1 (stripPdf name) ::
      wordGo pages.length 0 pages).filter isHeading1).length = 1
    rw [List.filter_cons]
    simp [isHeading1, wordGo_filter_heading1]
  · intro htot j hj
    have hmem := wordGo_heading2_mem pages pages.length 0 htot j hj
    apply List.mem_cons_of_mem
    simpa using hmem
  · show ((Block.heading1 (stripPdf name) ::
      wordGo pages.length 0 pages).filter isPageBreak).length =
        pages.length - 1
    rw [List.filter_cons]
    simp only [isPageBreak, Bool.false_eq_true, if_neg (by simp : ¬False)]
    exact wordGo_break_count pages pages.length 0 (by simp)

/-- C9 witness: the amended statement evaluated on a two-page document —
page 2 yields zero lines yet still gets its heading. -/
theorem C9_flow_structure_witness :
    Block.heading2 ("Page " ++ toString (1 + 1)) ∈
      convertToWordBlocks "a.pdf" [[⟨"A", 10, 10, 5, 5⟩], []] :=
  (C9_flow_structure_amended "a.pdf" [[⟨"A", 10, 10, 5, 5⟩], []]).2.2.2.1
    (by decide) 1 (by decide)

/-- C10: for a page whose grouped lines are non-empty, `detectColumns`
returns at least one column (every line produced by `groupIntoLines` is
non-empty), and for every fragment `assignCol` returns an index smaller
than the row length (the row being sized to the column count), so the
cell write never indexes outside the row; in general `assignCol` is in
range whenever the column list is non-empty. -/
theorem C10_cell_write_bounds (items : List TextItem) (tolerance : Int)
    (h : groupIntoLines items tolerance ≠ []) :
    detectColumns (groupIntoLines items tolerance) ≠ [] ∧
    (∀ line ∈ groupIntoLines items tolerance, line ≠ []) ∧
    (∀ line ∈ groupIntoLines items tolerance, ∀ i ∈ line,
      assignCol i.x (detectColumns (groupIntoLines items tolerance)) <
        (fillRow (detectColumns (groupIntoLines items tolerance))
          line).length) ∧
    (∀ (x : Int) (cols : List Int), cols ≠ [] →
      assignCol x cols < cols.length) := by
  have hcols : detectColumns (groupIntoLines items tolerance) ≠ [] := by
    unfold detectColumns
    apply detectCols_ne_nil
    rcases List.exists_mem_of_ne_nil _ h with ⟨line, hline⟩
    have hlne := groupIntoLines_ne_nil items tolerance line hline
    rcases List.exists_mem_of_ne_nil _ hlne with ⟨i, hi⟩
    apply List.ne_nil_of_mem (a := i.x)
    apply List.mem_flatten.mpr
    exact ⟨line.map (·.x), List.mem_map_of_mem _ hline,
      List.mem_map_of_mem _ hi⟩
  refine ⟨hcols, groupIntoLines_ne_nil items tolerance, ?_,
    fun x cols hc => assignCol_lt x cols hc⟩
  intro line _ i _
  rw [fillRow_length]
  exact assignCol_lt _ _ hcols

/-- C10 witness: the bounds statement evaluated on a one-fragment page. -/
theorem C10_cell_write_bounds_witness :
    detectColumns (groupIntoLines [⟨"A", 10, 10, 5, 5⟩] 5) ≠ [] :=
  (C10_cell_write_bounds [⟨"A", 10, 10, 5, 5⟩] 5 (by decide)).1
